import Mathlib

/-!
# Verification of the WalletConnect relay core against its specification

This file gives a shallow embedding of the repository's JSON-RPC history
component (`JsonRpcHistory` in the client package) and of the relay server's
WebSocket session layer (`WebSocketService` in `src/servers/relay/src/ws.ts`,
`genWsOptions` in `src/servers/relay/src/http.ts`), and proves properties of
these embeddings.

JavaScript values that flow through the code (request params, payloads) are
embedded as a small JSON value type with JavaScript truthiness; the JS
`Map<number, JsonRpcRecord>` is embedded as an insertion-ordered association
list keyed by record id, matching `Map.set` / `Map.delete` / `Map.values`
semantics.
-/

namespace WalletConnect

/-- A JSON value, as produced by `JSON.parse` / consumed by `JSON.stringify`.
Embeds the JavaScript values the relay code manipulates. -/
inductive JsonValue where
  | null : JsonValue
  | bool (b : Bool) : JsonValue
  | num (n : Int) : JsonValue
  | str (s : String) : JsonValue
  | arr (xs : List JsonValue) : JsonValue
  | obj (fields : List (String × JsonValue)) : JsonValue

/-- JavaScript truthiness of a JSON value (`null`, `false`, `0`, `""` are
falsy; arrays and objects are always truthy). -/
def jvTruthy : JsonValue → Bool
  | .null => false
  | .bool b => b
  | .num n => n != 0
  | .str s => s != ""
  | .arr _ => true
  | .obj _ => true

/-- The JavaScript expression `v || null` applied to a possibly-undefined
value (`none` embeds `undefined`): falsy values collapse to `null`.
This is the normalization `request.params || null` in `JsonRpcHistory.set`. -/
def jvOrNull : Option JsonValue → JsonValue
  | none => .null
  | some v => if jvTruthy v then v else .null

/-- The fields of a `JsonRpcRequest` that `JsonRpcHistory.set` reads:
`id`, `method` and `params` (`none` embeds an absent `params`). -/
structure RpcRequest where
  id : Nat
  method : String
  params : Option JsonValue

/-- A `JsonRpcResponse = JsonRpcResult | JsonRpcError`; the library predicate
`isJsonRpcError` holds exactly on the second alternative. -/
inductive RpcResponse where
  | result (id : Nat) (value : JsonValue) : RpcResponse
  | error (id : Nat) (code : Int) (message : String) : RpcResponse

/-- `response.id` for either alternative. -/
def RpcResponse.rid : RpcResponse → Nat
  | .result i _ => i
  | .error i _ _ => i

/-- `isJsonRpcError(response)` from `@walletconnect/jsonrpc-utils`:
the response carries an `error` member. -/
def isJsonRpcError : RpcResponse → Bool
  | .result _ _ => false
  | .error _ _ _ => true

/-- The `response` field stored on a history record:
`{ error: response.error }` or `{ result: response.result }`. -/
inductive StoredResponse where
  | result (value : JsonValue) : StoredResponse
  | error (code : Int) (message : String) : StoredResponse

/-- `isJsonRpcError(response) ? { error: response.error } : { result: response.result }`
in `JsonRpcHistory.update`. -/
def storeResponse : RpcResponse → StoredResponse
  | .result _ v => .result v
  | .error _ c m => .error c m

/-- The stored `request` member of a history record: `{ method, params }`
(with `params` already normalized by `|| null`). -/
structure StoredRequest where
  method : String
  params : JsonValue

/-- A `JsonRpcRecord`: `{ id, topic, request, chainId?, response? }`. -/
structure JsonRpcRecord where
  id : Nat
  topic : String
  request : StoredRequest
  chainId : Option String
  response : Option StoredResponse

/-- The history's `records` map (`Map<number, JsonRpcRecord>`), embedded as an
insertion-ordered list of records keyed by `id`. -/
abbrev Records := List JsonRpcRecord

/-- `records.get(id)` (first record with the given id). -/
def recGet (rs : Records) (id : Nat) : Option JsonRpcRecord :=
  List.find? (fun r => r.id == id) rs

/-- `records.has(id)`. -/
def recHas (rs : Records) (id : Nat) : Bool :=
  List.any rs (fun r => r.id == id)

/-- `records.set(r.id, r)`: replace in place when the key exists (a JS `Map`
keeps insertion order on overwrite), append otherwise. -/
def recSet (rs : Records) (r : JsonRpcRecord) : Records :=
  if recHas rs r.id then
    List.map (fun x => if x.id == r.id then r else x) rs
  else
    rs ++ [r]

/-- Events emitted by the history (`created` / `updated` / `deleted`, plus the
internal `sync` / `enabled` / `disabled` signals). -/
inductive HistoryEvent where
  | created (r : JsonRpcRecord) : HistoryEvent
  | updated (r : JsonRpcRecord) : HistoryEvent
  | deleted (r : JsonRpcRecord) : HistoryEvent
  | sync : HistoryEvent
  | enabledEvt : HistoryEvent
  | disabledEvt : HistoryEvent

/-- The error values the history throws (`ERROR.*` from `@walletconnect/utils`). -/
inductive HistoryError where
  | recordAlreadyExists (id : Nat) : HistoryError
  | noMatchingId (id : Nat) : HistoryError
  | mismatchedTopic (id : Nat) : HistoryError
  | restoreWillOverride : HistoryError

/-- Body of `JsonRpcHistory.set` after the `isEnabled` gate: throw
`RECORD_ALREADY_EXISTS` when a record with `request.id` exists, otherwise
store `{ id: request.id, topic, request: { method, params: params || null },
chainId }` and emit `created`. -/
def setCore (rs : Records) (topic : String) (request : RpcRequest)
    (chainId : Option String) : Except HistoryError (Records × List HistoryEvent) :=
  if recHas rs request.id then
    .error (.recordAlreadyExists request.id)
  else
    let record : JsonRpcRecord :=
      { id := request.id, topic := topic,
        request := { method := request.method, params := jvOrNull request.params },
        chainId := chainId, response := none }
    .ok (recSet rs record, [.created record])

/-- Body of `JsonRpcHistory.update` after the `isEnabled` gate: return
silently when no record has `response.id` (the subsequent `getRecord` cannot
throw since `has` just succeeded), when the stored topic differs, or when the
record already has a response; otherwise attach the stored response and emit
`updated`. -/
def updateCore (rs : Records) (topic : String) (response : RpcResponse) :
    Records × List HistoryEvent :=
  if recHas rs response.rid then
    match recGet rs response.rid with
    | none => (rs, [])
    | some record =>
      if record.topic != topic then (rs, [])
      else if record.response.isSome then (rs, [])
      else
        let record' : JsonRpcRecord := { record with response := some (storeResponse response) }
        (recSet rs record', [.updated record'])
  else (rs, [])

/-- `JsonRpcHistory.getRecord` after its `isEnabled` gate: throw
`NO_MATCHING_ID` when the map has no record with this id. -/
def getRecordCore (rs : Records) (id : Nat) : Except HistoryError JsonRpcRecord :=
  match recGet rs id with
  | none => .error (.noMatchingId id)
  | some r => .ok r

/-- Body of `JsonRpcHistory.get` after the `isEnabled` gate: `getRecord`,
then throw `MISMATCHED_TOPIC` when the stored topic differs. -/
def getCore (rs : Records) (topic : String) (id : Nat) :
    Except HistoryError JsonRpcRecord :=
  match getRecordCore rs id with
  | .error e => .error e
  | .ok record =>
    if record.topic != topic then .error (.mismatchedTopic id)
    else .ok record

/-- Whether `JsonRpcHistory.delete` removes a record: its topic equals the
argument and, when an `id` is supplied, its id equals that `id`. -/
def delMatch (topic : String) (idOpt : Option Nat) (r : JsonRpcRecord) : Bool :=
  r.topic == topic &&
    (match idOpt with
     | some i => r.id == i
     | none => true)

/-- Body of `JsonRpcHistory.delete` after the `isEnabled` gate: iterate a
snapshot of `values`, and for every matching record call
`records.delete(record.id)` and emit `deleted record`. Since the map keys
records by their `id`, the loop removes exactly the matching records and
emits one `deleted` event for each, in iteration order. -/
def deleteCore (rs : Records) (topic : String) (idOpt : Option Nat) :
    Records × List HistoryEvent :=
  (List.filter (fun r => !(delMatch topic idOpt r)) rs,
   List.map HistoryEvent.deleted (List.filter (delMatch topic idOpt) rs))

/-! ## History state, the restoration gate, and `restore` -/

/-- The mutable state of a `JsonRpcHistory` instance that the claims are
about: the `records` map and the `cached` snapshot list. The constructor
leaves `records` empty and `cached` empty (`private cached: JsonRpcRecord[] = []`). -/
structure HistoryState where
  records : Records
  cached : List JsonRpcRecord

/-- The state right after construction: `records = new Map()`, `cached = []`. -/
def initialHistoryState : HistoryState := { records := [], cached := [] }

/-- `isEnabled()` suspends (awaits the one-shot `enabled` event) exactly when
`this.cached.length` is non-zero; with an empty `cached` it resolves at once. -/
def isEnabledSuspends (s : HistoryState) : Bool :=
  !s.cached.isEmpty

/-- Outcome of one public history call: either the call is suspended on the
`isEnabled` gate (awaiting the `enabled` event, no state change yet), or it
runs to completion with a successor state, a result (`Except` embeds a thrown
error as `.error`), and the events it emitted. -/
inductive OpOutcome (α : Type) where
  | suspended : OpOutcome α
  | done (s : HistoryState) (r : Except HistoryError α) (evts : List HistoryEvent) : OpOutcome α

/-- `JsonRpcHistory.set(topic, request, chainId?)`: await `isEnabled`, then
run the body. -/
def historySet (s : HistoryState) (topic : String) (request : RpcRequest)
    (chainId : Option String) : OpOutcome Unit :=
  if isEnabledSuspends s then .suspended
  else
    match setCore s.records topic request chainId with
    | .error e => .done s (.error e) []
    | .ok (rs, evts) => .done { s with records := rs } (.ok ()) evts

/-- `JsonRpcHistory.update(topic, response)`: await `isEnabled`, then run the
body. -/
def historyUpdate (s : HistoryState) (topic : String) (response : RpcResponse) :
    OpOutcome Unit :=
  if isEnabledSuspends s then .suspended
  else
    let (rs, evts) := updateCore s.records topic response
    .done { s with records := rs } (.ok ()) evts

/-- `JsonRpcHistory.get(topic, id)`: await `isEnabled`, then run the body
(which never mutates the state). -/
def historyGet (s : HistoryState) (topic : String) (id : Nat) :
    OpOutcome JsonRpcRecord :=
  if isEnabledSuspends s then .suspended
  else .done s (getCore s.records topic id) []

/-- `JsonRpcHistory.delete(topic, id?)`: await `isEnabled`, then run the body. -/
def historyDelete (s : HistoryState) (topic : String) (idOpt : Option Nat) :
    OpOutcome Unit :=
  if isEnabledSuspends s then .suspended
  else
    let (rs, evts) := deleteCore s.records topic idOpt
    .done { s with records := rs } (.ok ()) evts

/-- `enable()`: clear `cached` and emit the one-shot `enabled` event, which
releases every call suspended on `isEnabled`. -/
def historyEnable (s : HistoryState) : HistoryState × List HistoryEvent :=
  ({ s with cached := [] }, [.enabledEvt])

/-- The `try` block of `JsonRpcHistory.restore`, before the surrounding
`catch`: read the persisted snapshot (`none` embeds `undefined`); return
unchanged when it is absent or empty; throw `RESTORE_WILL_OVERRIDE` when the
in-memory map is non-empty; otherwise set `cached := persisted`, insert every
cached record into the map, then `enable()` (which clears `cached`). -/
def restoreBody (s : HistoryState) (persisted : Option (List JsonRpcRecord)) :
    Except HistoryError HistoryState :=
  match persisted with
  | none => .ok s
  | some ps =>
    if ps.isEmpty then .ok s
    else if !s.records.isEmpty then .error .restoreWillOverride
    else
      .ok (historyEnable { records := List.foldl recSet s.records ps, cached := ps }).1

/-- The state during restoration, after `this.cached = persisted` has been
assigned but before `enable()` has run (the `await Promise.all(...)` window of
`restore`). -/
def restoreMidState (s : HistoryState) (persisted : List JsonRpcRecord) : HistoryState :=
  { s with cached := persisted }

/-- The observable result of `JsonRpcHistory.restore()` (and hence of
`init()`, which merely awaits it). -/
structure RestoreResult where
  /-- The state after the call. -/
  state : HistoryState
  /-- What the caller of `restore` / `init` observes: the promise rejects
  (`Except.error`) only if an exception escapes. -/
  callerResult : Except HistoryError Unit
  /-- The error caught by the `try/catch` inside `restore` and logged, if any. -/
  loggedError : Option HistoryError

/-- `JsonRpcHistory.restore()`: the whole body sits in a `try/catch` whose
`catch` only logs, so an error thrown by the body is caught and logged and
the call always resolves successfully with the state unchanged. -/
def historyRestore (s : HistoryState) (persisted : Option (List JsonRpcRecord)) :
    RestoreResult :=
  match restoreBody s persisted with
  | .ok s' => { state := s', callerResult := .ok (), loggedError := none }
  | .error e => { state := s, callerResult := .ok (), loggedError := some e }

/-- `JsonRpcHistory.init()`: log, then `await this.restore()`. -/
def historyInit (s : HistoryState) (persisted : Option (List JsonRpcRecord)) :
    RestoreResult :=
  historyRestore s persisted

/-! ## WebSocket session layer (`src/servers/relay/src/ws.ts`,
`src/servers/relay/src/http.ts`) -/

/-- The live socket set `WebSocketService.sockets : Map<string, Socket>`,
embedded as an insertion-ordered association list from socket id to the
socket's `isAlive` flag (`none` embeds the fresh socket whose `isAlive`
property has never been assigned). -/
abbrev WsState := List (String × Option Bool)

/-- `sockets.get(socketId)` (first entry with the given id; ids are fresh
32-byte hex strings, so keys are unique). -/
def lookupSocket (s : WsState) (sid : String) : Option (Option Bool) :=
  (List.find? (fun e => e.1 == sid) s).map (fun e => e.2)

mutual

/-- A minimal `JSON.stringify` over the embedded JSON values (string escaping
is not modelled; no claim depends on it). -/
def jsonStringify : JsonValue → String
  | .null => "null"
  | .bool b => if b then "true" else "false"
  | .num n => toString n
  | .str s => "\x22" ++ s ++ "\x22"
  | .arr xs => "[" ++ jsonStringifyList xs ++ "]"
  | .obj fs => "\x7b" ++ jsonStringifyFields fs ++ "\x7d"

/-- Comma-separated serialization of an array's elements. -/
def jsonStringifyList : List JsonValue → String
  | [] => ""
  | [x] => jsonStringify x
  | x :: y :: xs => jsonStringify x ++ "," ++ jsonStringifyList (y :: xs)

/-- Comma-separated serialization of an object's fields. -/
def jsonStringifyFields : List (String × JsonValue) → String
  | [] => ""
  | [(k, v)] => "\x22" ++ k ++ "\x22:" ++ jsonStringify v
  | (k, v) :: f :: fs =>
    "\x22" ++ k ++ "\x22:" ++ jsonStringify v ++ "," ++ jsonStringifyFields (f :: fs)

end

/-- The argument type of `WebSocketService.send`:
`msg: string | JsonRpcPayload | LegacySocketMessage`. Non-string payloads are
carried as JSON documents. -/
inductive WsOutMsg where
  | str (s : String) : WsOutMsg
  | payload (p : JsonValue) : WsOutMsg

/-- `typeof msg === "string" ? msg : safeJsonStringify(msg)` in
`WebSocketService.send`. -/
def renderOutMsg : WsOutMsg → String
  | .str s => s
  | .payload p => jsonStringify p

/-- `WebSocketService.send(socketId, msg)`: look the socket up; return
`false` transmitting nothing when it is absent; otherwise serialize non-string
payloads, call `socket.send` on exactly that socket, and return `true`. The
second component lists the `(socketId, frame)` transmissions performed. -/
def wsSend (sockets : WsState) (socketId : String) (msg : WsOutMsg) :
    Bool × List (String × String) :=
  match lookupSocket sockets socketId with
  | none => (false, [])
  | some _ => (true, [(socketId, renderOutMsg msg)])

/-! ### Inbound frame size ceiling (`genWsOptions` in `http.ts`) -/

/-- The WebSocket server option `maxPayload: 500 * 1024` set by
`genWsOptions` (500 KiB, i.e. 512000 bytes). -/
def wsMaxPayload : Nat := 500 * 1024

/-- Modelled from the spec: the close-code table gives 1009 for oversize
frames. The `ws` server configured by `genWsOptions` (the library itself is a
dependency, not part of `src/`) rejects an inbound frame strictly larger than
the configured `maxPayload` and closes the socket with code 1009. -/
def oversizeCloseCode : Nat := 1009

/-- Disposition of an inbound frame of `size` bytes by the configured
WebSocket server: `some code` when the frame is rejected and the socket is
closed with that code, `none` when the frame is not rejected for size. -/
def frameSizeOutcome (size : Nat) : Option Nat :=
  if wsMaxPayload < size then some oversizeCloseCode else none

/-! ### The per-socket message handler (`addNewSocket`) -/

/-- Result of `JSON.parse` on a frame: `failure` embeds a thrown exception. -/
inductive ParseOutcome where
  | success (v : JsonValue) : ParseOutcome
  | failure : ParseOutcome

/-- The relay mode switches consulted by the handler
(`isLegacyDisabled(config.mode)` / `isJsonRpcDisabled(config.mode)`). -/
structure RelayModeFlags where
  legacyDisabled : Bool
  jsonrpcDisabled : Bool

/-- Modelled from the spec: `isLegacySocketMessage` (from the relay's utils,
not included under `src/`) recognizes the legacy bridge envelope, an object
carrying `topic`, `type` and `payload` members. -/
def isLegacySocketMessage : JsonValue → Bool
  | .obj fs =>
    (List.find? (fun f => f.1 == "topic") fs).isSome &&
    (List.find? (fun f => f.1 == "type") fs).isSome &&
    (List.find? (fun f => f.1 == "payload") fs).isSome
  | _ => false

/-- Modelled from the spec: `isJsonRpcPayload` (from
`@walletconnect/jsonrpc-utils`, a dependency) recognizes a JSON-RPC 2.0
payload, an object carrying `id` and `jsonrpc` members. -/
def isJsonRpcPayload : JsonValue → Bool
  | .obj fs =>
    (List.find? (fun f => f.1 == "id") fs).isSome &&
    (List.find? (fun f => f.1 == "jsonrpc") fs).isSome
  | _ => false

/-- Where the handler forwards a well-formed payload. -/
inductive DispatchTarget where
  | legacy (v : JsonValue) : DispatchTarget
  | jsonrpc (v : JsonValue) : DispatchTarget

/-- What one run of the `message` handler does: the reply it sends back on
the same socket (if any), the service it dispatches the payload to (if any),
and whether it closes or terminates the socket (the handler never does). -/
structure MsgHandleResult where
  reply : Option WsOutMsg
  dispatch : Option DispatchTarget
  closesSocket : Bool

/-- The `message` handler installed by `WebSocketService.addNewSocket`:
empty or whitespace-only frames get the reply `"Missing or invalid socket
data"`; `safeJsonParse` returns the input string itself when `JSON.parse`
throws, and any string-valued parse gets the reply `"Socket message is
invalid"`; otherwise the payload is classified as legacy or JSON-RPC (subject
to the mode switches) or answered with `"Socket message unsupported"`. No
branch closes the socket. -/
def handleSocketMessage (mode : RelayModeFlags) (message : String)
    (parse : ParseOutcome) : MsgHandleResult :=
  if message.isEmpty || message.trim.isEmpty then
    { reply := some (.str "Missing or invalid socket data"), dispatch := none,
      closesSocket := false }
  else
    match parse with
    | .failure =>
      { reply := some (.str "Socket message is invalid"), dispatch := none,
        closesSocket := false }
    | .success (.str _) =>
      { reply := some (.str "Socket message is invalid"), dispatch := none,
        closesSocket := false }
    | .success v =>
      if isLegacySocketMessage v then
        if mode.legacyDisabled then
          { reply := some (.str "Legacy messages are disabled"), dispatch := none,
            closesSocket := false }
        else
          { reply := none, dispatch := some (.legacy v), closesSocket := false }
      else if isJsonRpcPayload v then
        if mode.jsonrpcDisabled then
          { reply := some (.str "JSON-RPC messages are disabled"), dispatch := none,
            closesSocket := false }
        else
          { reply := none, dispatch := some (.jsonrpc v), closesSocket := false }
      else
        { reply := some (.str "Socket message unsupported"), dispatch := none,
          closesSocket := false }

/-- Is a (possibly absent) reply a JSON-RPC error response, i.e. a JSON-RPC
payload carrying an `error` member (rather than a plain text frame)? -/
def replyIsJsonRpcErrorResponse : Option WsOutMsg → Bool
  | some (.payload (.obj fs)) =>
    (List.find? (fun f => f.1 == "jsonrpc") fs).isSome &&
    (List.find? (fun f => f.1 == "error") fs).isSome
  | _ => false

/-! ### Liveness: the server beat (`clearInactiveSockets`) and pongs -/

/-- `socket.isAlive === false` (a fresh socket's undefined flag is not
`false`). -/
def socketDead (e : String × Option Bool) : Bool :=
  e.2 == some false

/-- Result of one run of `clearInactiveSockets`. -/
structure BeatResult where
  /-- The live set after the beat. -/
  state : WsState
  /-- Sockets terminated (`sockets.delete` + `socket.terminate()`). -/
  terminated : List String
  /-- Sockets that were sent a ping (after `isAlive = false`). -/
  pinged : List String

/-- `clearInactiveSockets`, run at every server beat: every socket whose
`isAlive` is `false` is deleted from the map and terminated; every other
socket has `isAlive` set to `false` and is pinged. (The loop iterates a
snapshot of the keys and looks each socket up; with the map's unique keys
this is the per-entry partition below.) -/
def beatStep (s : WsState) : BeatResult :=
  { state := List.map (fun e => (e.1, some false)) (List.filter (fun e => !socketDead e) s),
    terminated := List.map Prod.fst (List.filter socketDead s),
    pinged := List.map Prod.fst (List.filter (fun e => !socketDead e) s) }

/-- The `pong` handler installed by `addNewSocket`: `socket.isAlive = true`. -/
def pongStep (s : WsState) (sid : String) : WsState :=
  List.map (fun e => if e.1 == sid then (e.1, some true) else e) s

/-- The `close` handler installed by `addNewSocket`:
`sockets.delete(socketId)`. -/
def closeStep (s : WsState) (sid : String) : WsState :=
  List.filter (fun e => e.1 != sid) s

/-- The session-layer events that touch the live set. -/
inductive WsEvent where
  | beat : WsEvent
  | pong (sid : String) : WsEvent
  | msgEvt (sid : String) (frame : String) (parse : ParseOutcome) : WsEvent
  | closeEvt (sid : String) : WsEvent

/-- Effect of one event on the live set: the beat runs
`clearInactiveSockets`; a pong flips the flag; an inbound frame never alters
the set (the `message` handler only replies or dispatches); a close removes
the socket. -/
def stepEvent (s : WsState) : WsEvent → WsState
  | .beat => (beatStep s).state
  | .pong sid => pongStep s sid
  | .msgEvt _ _ _ => s
  | .closeEvt sid => closeStep s sid

/-- Run a sequence of session-layer events. -/
def runEvents (s : WsState) (es : List WsEvent) : WsState :=
  List.foldl stepEvent s es

/-- A socket `sid` "answers every ping" along an event trace: at each beat it
has answered (or was never pinged / not yet dead) — the flag tracks whether
its `isAlive` is currently known not to be `false`; a beat requires the flag
and resets it, a pong for `sid` re-establishes it. -/
def answersEveryPing (sid : String) : List WsEvent → Bool → Bool
  | [], _ => true
  | .beat :: rest, ok => ok && answersEveryPing sid rest false
  | .pong s :: rest, ok => answersEveryPing sid rest (ok || s == sid)
  | .msgEvt _ _ _ :: rest, ok => answersEveryPing sid rest ok
  | .closeEvt _ :: rest, ok => answersEveryPing sid rest ok

/-! ## Helper lemmas about the record map -/

/-- A successful `recGet` means `recHas` holds. -/
theorem recHas_of_recGet {rs : Records} {id : Nat} {r : JsonRpcRecord}
    (h : recGet rs id = some r) : recHas rs id = true := by
  unfold recGet at h
  unfold recHas
  refine List.any_eq_true.mpr ⟨r, List.mem_of_find?_eq_some h, ?_⟩
  have hx := @List.find?_some _ (fun y : JsonRpcRecord => y.id == id) r rs h
  simpa using hx

/-- A record found by `recGet rs id` has id `id`. -/
theorem recGet_id {rs : Records} {id : Nat} {r : JsonRpcRecord}
    (h : recGet rs id = some r) : r.id = id := by
  unfold recGet at h
  have hx := @List.find?_some _ (fun y : JsonRpcRecord => y.id == id) r rs h
  simpa using hx

/-- Replacing the record keyed `r.id` makes `r.id` resolve to `r`,
provided the key is present. -/
theorem find_replace_self (r : JsonRpcRecord) (rs : Records)
    (h : recHas rs r.id = true) :
    List.find? (fun y => y.id == r.id)
      (List.map (fun x => if x.id == r.id then r else x) rs) = some r := by
  rw [List.find?_map]
  have hp : ((fun y => y.id == r.id) ∘ fun x => if x.id == r.id then r else x)
      = (fun y : JsonRpcRecord => y.id == r.id) := by
    funext x
    by_cases hx : x.id = r.id
    · simp [hx]
    · simp [hx]
  rw [hp]
  obtain ⟨x, hmem, hx⟩ := List.any_eq_true.mp h
  cases hfind : List.find? (fun y => y.id == r.id) rs with
  | none => exact absurd hx (by simpa using List.find?_eq_none.mp hfind x hmem)
  | some y =>
    have hy := @List.find?_some _ (fun y : JsonRpcRecord => y.id == r.id) y rs hfind
    simp only [beq_iff_eq] at hy
    simp [hy]

/-- Appending a fresh record makes its id resolve to it. -/
theorem find_append_self (r : JsonRpcRecord) (rs : Records)
    (h : recHas rs r.id = false) :
    List.find? (fun y => y.id == r.id) (rs ++ [r]) = some r := by
  rw [List.find?_append]
  have hnone : List.find? (fun y => y.id == r.id) rs = none := by
    refine List.find?_eq_none.mpr fun x hx => ?_
    simp only [recHas] at h
    have := List.any_eq_false.mp h x hx
    simpa using this
  simp [hnone]

/-- After `recSet rs r`, looking up `r.id` yields `r`. -/
theorem recGet_recSet_self (rs : Records) (r : JsonRpcRecord) :
    recGet (recSet rs r) r.id = some r := by
  unfold recSet recGet
  by_cases h : recHas rs r.id = true
  · simp only [h, if_true]
    exact find_replace_self r rs h
  · have h' : recHas rs r.id = false := by
      cases hc : recHas rs r.id
      · rfl
      · exact absurd hc h
    simp only [h', Bool.false_eq_true, if_false]
    exact find_append_self r rs h'

/-- Replacing the record keyed `r.id` does not disturb other lookups. -/
theorem find_replace_ne (r : JsonRpcRecord) (i : Nat) (h : r.id ≠ i)
    (rs : Records) :
    List.find? (fun y => y.id == i)
      (List.map (fun x => if x.id == r.id then r else x) rs)
      = List.find? (fun y => y.id == i) rs := by
  have hri : (r.id == i) = false := beq_eq_false_iff_ne.mpr h
  rw [List.find?_map]
  have hp : ((fun y => y.id == i) ∘ fun x => if x.id == r.id then r else x)
      = (fun y : JsonRpcRecord => y.id == i) := by
    funext x
    by_cases hx : x.id = r.id
    · simp [hx, hri]
    · simp [hx]
  rw [hp]
  cases hfind : List.find? (fun y => y.id == i) rs with
  | none => rfl
  | some y =>
    have hy := @List.find?_some _ (fun y : JsonRpcRecord => y.id == i) y rs hfind
    simp only [beq_iff_eq] at hy
    have hyr : y.id ≠ r.id := fun e => h (e ▸ hy)
    simp [hyr]

/-- Appending a record with a different id does not disturb a lookup. -/
theorem find_append_ne (r : JsonRpcRecord) (i : Nat) (h : r.id ≠ i)
    (rs : Records) :
    List.find? (fun y => y.id == i) (rs ++ [r])
      = List.find? (fun y => y.id == i) rs := by
  have hri : (r.id == i) = false := beq_eq_false_iff_ne.mpr h
  rw [List.find?_append]
  simp [List.find?, hri]

/-- `recSet` does not disturb lookups of other ids. -/
theorem recGet_recSet_ne (rs : Records) (r : JsonRpcRecord) (i : Nat)
    (h : r.id ≠ i) : recGet (recSet rs r) i = recGet rs i := by
  unfold recSet recGet
  by_cases hh : recHas rs r.id = true
  · simp only [hh, if_true]
    exact find_replace_ne r i h rs
  · have h' : recHas rs r.id = false := by
      cases hc : recHas rs r.id
      · rfl
      · exact absurd hc hh
    simp only [h', Bool.false_eq_true, if_false]
    exact find_append_ne r i h rs

/-! ## Sample values used by witnesses and counterexamples -/

/-- A sample request: `{ id: 1, method: "eth_sign" }` with no params. -/
def sampleRequest : RpcRequest := { id := 1, method := "eth_sign", params := none }

/-- The record `set("t1", sampleRequest)` stores. -/
def sampleRecord : JsonRpcRecord :=
  { id := 1, topic := "t1", request := { method := "eth_sign", params := .null },
    chainId := none, response := none }

/-- A second sample record, on another topic with another id. -/
def sampleRecord2 : JsonRpcRecord :=
  { id := 2, topic := "t2", request := { method := "m2", params := .null },
    chainId := none, response := none }

/-! ## Claims -/

/-- Claim C2, counterexample: a frame of exactly 512 KiB (524288 bytes) is
"at most 512 KiB", yet the configured server (`maxPayload: 500 * 1024`)
rejects it and closes the socket with code 1009, contradicting the claim
that frames of at most 512 KiB are not rejected for size. -/
theorem ws_frame_size_cex :
    524288 ≤ 512 * 1024 ∧ frameSizeOutcome 524288 = some 1009 := by
  constructor
  · decide
  · rfl

/-- Claim C2, amended: the size ceiling set by `genWsOptions` is
`500 * 1024` bytes (500 KiB), not 512 KiB: an inbound frame strictly larger
than 500 KiB is rejected and the socket is closed with code 1009, and a frame
of at most 500 KiB is not rejected for size. -/
theorem ws_frame_size_claim (n : Nat) :
    (n ≤ 500 * 1024 → frameSizeOutcome n = none)
    ∧ (500 * 1024 < n → frameSizeOutcome n = some 1009) := by
  constructor
  · intro h
    simp [frameSizeOutcome, wsMaxPayload, Nat.not_lt.mpr h]
  · intro h
    simp [frameSizeOutcome, wsMaxPayload, h, oversizeCloseCode]

/-- Claim C2, witness: the boundary frame of 512000 bytes passes, the frame
one byte larger is rejected with close code 1009. -/
theorem ws_frame_size_claim_witness :
    frameSizeOutcome 512000 = none ∧ frameSizeOutcome 512001 = some 1009 :=
  ⟨(ws_frame_size_claim 512000).1 (by decide),
   (ws_frame_size_claim 512001).2 (by decide)⟩

/-- Claim C10: `WebSocketService.send(socketId, msg)` returns `false` and
transmits nothing when `socketId` is not in the live socket map (without
throwing), and otherwise serializes non-string payloads to JSON, transmits
the rendered message on exactly that socket, and returns `true`. -/
theorem ws_send_claim (sockets : WsState) (sid : String) (msg : WsOutMsg) :
    (lookupSocket sockets sid = none → wsSend sockets sid msg = (false, []))
    ∧ (∀ a, lookupSocket sockets sid = some a →
        (wsSend sockets sid msg).1 = true
        ∧ (wsSend sockets sid msg).2 = [(sid, renderOutMsg msg)]
        ∧ (∀ p, msg = .payload p → renderOutMsg msg = jsonStringify p)
        ∧ (∀ t, msg = .str t → renderOutMsg msg = t)) := by
  constructor
  · intro h
    simp [wsSend, h]
  · intro a h
    refine ⟨by simp [wsSend, h], by simp [wsSend, h], ?_, ?_⟩
    · intro p hp
      simp [hp, renderOutMsg]
    · intro t ht
      simp [ht, renderOutMsg]

/-- Claim C10, witness: sending to a connected socket transmits on it and
returns `true`; sending to an unknown id returns `false` with no
transmissions. -/
theorem ws_send_claim_witness :
    (wsSend [("s1", none)] "s1" (WsOutMsg.str "hi")).1 = true
    ∧ wsSend [("s1", none)] "s2" (WsOutMsg.str "hi") = (false, []) :=
  ⟨((ws_send_claim [("s1", none)] "s1" (WsOutMsg.str "hi")).2 none rfl).1,
   (ws_send_claim [("s1", none)] "s2" (WsOutMsg.str "hi")).1 rfl⟩

/-- Claim C4, counterexample: with one record in memory and a non-empty
persisted snapshot, `init`/`restore` resolves successfully — the
`RestoreWouldOverride` error is caught by the `try/catch` inside `restore`
and only logged, so it is not surfaced to the caller as the claim states
(the in-memory records are indeed left unchanged). -/
theorem history_restore_cex :
    (historyInit { records := [sampleRecord], cached := [] } (some [sampleRecord2])).callerResult
      = Except.ok ()
    ∧ (historyInit { records := [sampleRecord], cached := [] } (some [sampleRecord2])).state
      = { records := [sampleRecord], cached := [] } := by
  exact ⟨rfl, rfl⟩

/-- Claim C4, amended: when restoration is attempted with a non-empty
in-memory record set and a non-empty persisted snapshot, the `try` block of
`restore` raises `RestoreWouldOverride` and the in-memory records are left
unchanged, but the error is caught and logged inside `restore`, so
`init`/`restore` resolves successfully instead of rejecting. -/
theorem history_restore_claim (s : HistoryState) (ps : List JsonRpcRecord)
    (hrecords : s.records ≠ []) (hps : ps ≠ []) :
    restoreBody s (some ps) = .error .restoreWillOverride
    ∧ historyRestore s (some ps)
        = { state := s, callerResult := .ok (), loggedError := some .restoreWillOverride }
    ∧ historyInit s (some ps)
        = { state := s, callerResult := .ok (), loggedError := some .restoreWillOverride } := by
  have h1 : ps.isEmpty = false := by
    cases ps with
    | nil => exact absurd rfl hps
    | cons a t => rfl
  have h2 : s.records.isEmpty = false := by
    cases hr : s.records with
    | nil => exact absurd hr hrecords
    | cons a t => rfl
  have hbody : restoreBody s (some ps) = .error .restoreWillOverride := by
    simp [restoreBody, h1, h2]
  refine ⟨hbody, ?_, ?_⟩
  · simp [historyRestore, hbody]
  · simp [historyInit, historyRestore, hbody]

/-- Claim C4, witness: the amended behavior at a concrete state with one
in-memory record and a one-record snapshot. -/
theorem history_restore_claim_witness :
    restoreBody { records := [sampleRecord], cached := [] } (some [sampleRecord2])
      = .error .restoreWillOverride :=
  (history_restore_claim { records := [sampleRecord], cached := [] } [sampleRecord2]
    (by simp) (by simp)).1

/-- Claim C3, counterexample: a `set` invoked in the state left by the
constructor (`records = new Map()`, `cached = []`), before any restoration
has run — and hence before the startup restoration has completed — is not
suspended: it runs to completion and modifies the record map, because the
`isEnabled` gate only waits while `cached` is non-empty and the constructor
leaves `cached` empty. -/
theorem history_gate_cex :
    historySet initialHistoryState "t1" sampleRequest none
      = .done { records := [sampleRecord], cached := [] } (.ok ())
          [.created sampleRecord]
    ∧ ({ records := [sampleRecord], cached := [] } : HistoryState).records
        ≠ initialHistoryState.records := by
  constructor
  · rfl
  · simp [initialHistoryState]

/-- Claim C3, amended: a history mutation (`set`, `update`, `delete`)
suspends on the `isEnabled` gate exactly when the restoration snapshot is
loaded but not yet enabled (`cached` non-empty): in such a state every
mutation suspends without touching the record map, and in particular every
mutation issued during the window of `restore` between `cached := persisted`
and `enable()` suspends; once `enable()` has cleared `cached` (restoration
complete), mutations proceed. Mutations issued while `cached` is empty —
including right after construction, before the persisted snapshot has been
loaded — proceed immediately. -/
theorem history_gate_claim (s : HistoryState) (topic : String)
    (request : RpcRequest) (chainId : Option String) (resp : RpcResponse)
    (idOpt : Option Nat) :
    (s.cached ≠ [] →
        historySet s topic request chainId = .suspended
        ∧ historyUpdate s topic resp = .suspended
        ∧ historyDelete s topic idOpt = .suspended)
    ∧ (s.cached = [] →
        historySet s topic request chainId ≠ .suspended
        ∧ historyUpdate s topic resp ≠ .suspended
        ∧ historyDelete s topic idOpt ≠ .suspended)
    ∧ (∀ ps : List JsonRpcRecord, ps ≠ [] →
        historySet (restoreMidState s ps) topic request chainId = .suspended
        ∧ historyUpdate (restoreMidState s ps) topic resp = .suspended
        ∧ historyDelete (restoreMidState s ps) topic idOpt = .suspended)
    ∧ historySet (historyEnable s).1 topic request chainId ≠ .suspended := by
  have hsusp : ∀ t : HistoryState, t.cached ≠ [] → isEnabledSuspends t = true := by
    intro t ht
    cases hc : t.cached with
    | nil => exact absurd hc ht
    | cons a l => simp [isEnabledSuspends, hc]
  have hrun : ∀ t : HistoryState, t.cached = [] → isEnabledSuspends t = false := by
    intro t ht
    simp [isEnabledSuspends, ht]
  refine ⟨?_, ?_, ?_, ?_⟩
  · intro h
    refine ⟨?_, ?_, ?_⟩ <;> simp [historySet, historyUpdate, historyDelete, hsusp s h]
  · intro h
    refine ⟨?_, ?_, ?_⟩
    · simp only [historySet, hrun s h, Bool.false_eq_true, if_false]
      cases setCore s.records topic request chainId with
      | error e => simp
      | ok v => simp
    · simp [historyUpdate, hrun s h]
    · simp [historyDelete, hrun s h]
  · intro ps hps
    have hmid : (restoreMidState s ps).cached ≠ [] := by
      simpa [restoreMidState] using hps
    refine ⟨?_, ?_, ?_⟩ <;>
      simp [historySet, historyUpdate, historyDelete, hsusp _ hmid]
  · have hen : (historyEnable s).1.cached = [] := rfl
    simp only [historySet, hrun _ hen, Bool.false_eq_true, if_false]
    cases setCore (historyEnable s).1.records topic request chainId with
    | error e => simp
    | ok v => simp

/-- Claim C3, witness for the amended claim: in the mid-restoration state
holding one cached record, a `set` suspends; after `enable()`, it does not. -/
theorem history_gate_claim_witness :
    historySet { records := ([] : Records), cached := [sampleRecord] } "t1" sampleRequest none
      = .suspended :=
  ((history_gate_claim { records := [], cached := [sampleRecord] } "t1" sampleRequest none
      (RpcResponse.result 1 .null) none).1 (by simp)).1

/-- The record `JsonRpcHistory.set(topic, request, chainId?)` stores:
`{ id: request.id, topic, request: { method: request.method,
params: request.params || null }, chainId }`. -/
def storedRecordOf (topic : String) (request : RpcRequest)
    (chainId : Option String) : JsonRpcRecord :=
  { id := request.id, topic := topic,
    request := { method := request.method, params := jvOrNull request.params },
    chainId := chainId, response := none }

/-- Claim C5, counterexample: `set` called with the falsy params value
`false` stores `null` as the record's `request.params` (the code normalizes
with `request.params || null`), so the stored record is not
`{id, topic, request: {method, params}, chainId?}` with the caller's
`params`. -/
theorem history_set_params_cex :
    setCore [] "t" { id := 1, method := "m", params := some (.bool false) } none
      = .ok ([{ id := 1, topic := "t", request := { method := "m", params := .null },
                chainId := none, response := none }],
             [.created { id := 1, topic := "t",
                         request := { method := "m", params := .null },
                         chainId := none, response := none }])
    ∧ JsonValue.null ≠ JsonValue.bool false := by
  constructor
  · rfl
  · intro h
    exact JsonValue.noConfusion h

/-- Claim C5, amended: `history.set(topic, request)` (in the enabled state)
throws `RecordAlreadyExists` and leaves the record map unchanged when a
record with `request.id` exists, regardless of its topic; otherwise it stores
the record `{id: request.id, topic, request: {method, params: request.params
|| null}, chainId?}` — params falsy or absent are stored as `null` — and
that record is retrievable under its id. -/
theorem history_set_claim (s : HistoryState) (topic : String)
    (request : RpcRequest) (chainId : Option String)
    (henabled : s.cached = []) :
    (recHas s.records request.id = true →
        historySet s topic request chainId
          = .done s (.error (.recordAlreadyExists request.id)) [])
    ∧ (recHas s.records request.id = false →
        historySet s topic request chainId
          = .done { s with records := recSet s.records (storedRecordOf topic request chainId) }
              (.ok ()) [.created (storedRecordOf topic request chainId)]
        ∧ recGet (recSet s.records (storedRecordOf topic request chainId)) request.id
            = some (storedRecordOf topic request chainId)) := by
  have hgate : isEnabledSuspends s = false := by simp [isEnabledSuspends, henabled]
  constructor
  · intro h
    simp [historySet, hgate, setCore, h]
  · intro h
    constructor
    · simp [historySet, hgate, setCore, h, storedRecordOf]
    · have : (storedRecordOf topic request chainId).id = request.id := rfl
      rw [← this]
      exact recGet_recSet_self s.records (storedRecordOf topic request chainId)

/-- Claim C5, witness: setting a fresh record in an empty, enabled history
stores it and makes it retrievable. -/
theorem history_set_claim_witness :
    recGet (recSet ([] : Records) (storedRecordOf "t1" sampleRequest none)) 1
      = some (storedRecordOf "t1" sampleRequest none) :=
  ((history_set_claim { records := [], cached := [] } "t1" sampleRequest none rfl).2 rfl).2

/-- Claim C6: `history.get(topic, id)` (in the enabled state) fails with
`NoMatchingId` when no record has that id, fails with `MismatchedTopic` when
the stored record's topic differs, and otherwise returns the stored record;
in every case the state — and with it the record map — is unchanged. -/
theorem history_get_claim (s : HistoryState) (topic : String) (id : Nat)
    (henabled : s.cached = []) :
    (recGet s.records id = none →
        historyGet s topic id = .done s (.error (.noMatchingId id)) [])
    ∧ (∀ r, recGet s.records id = some r →
        (r.topic ≠ topic →
            historyGet s topic id = .done s (.error (.mismatchedTopic id)) [])
        ∧ (r.topic = topic → historyGet s topic id = .done s (.ok r) [])) := by
  have hgate : isEnabledSuspends s = false := by simp [isEnabledSuspends, henabled]
  constructor
  · intro h
    simp [historyGet, hgate, getCore, getRecordCore, h]
  · intro r h
    constructor
    · intro ht
      have : (r.topic != topic) = true := by
        simpa using ht
      simp [historyGet, hgate, getCore, getRecordCore, h, this]
    · intro ht
      have : (r.topic != topic) = false := by
        simpa using ht
      simp [historyGet, hgate, getCore, getRecordCore, h, this]

/-- Claim C6, witness: getting a stored record with the matching topic
returns it; getting it under another topic fails with `MismatchedTopic`;
getting an absent id fails with `NoMatchingId`. -/
theorem history_get_claim_witness :
    historyGet { records := [sampleRecord], cached := [] } "t1" 1
      = .done { records := [sampleRecord], cached := [] } (.ok sampleRecord) []
    ∧ historyGet { records := [sampleRecord], cached := [] } "t2" 1
      = .done { records := [sampleRecord], cached := [] }
          (.error (.mismatchedTopic 1)) []
    ∧ historyGet { records := [sampleRecord], cached := [] } "t1" 7
      = .done { records := [sampleRecord], cached := [] }
          (.error (.noMatchingId 7)) [] :=
  ⟨((history_get_claim { records := [sampleRecord], cached := [] } "t1" 1 rfl).2
      sampleRecord rfl).2 rfl,
   ((history_get_claim { records := [sampleRecord], cached := [] } "t2" 1 rfl).2
      sampleRecord rfl).1 (by intro h; exact absurd h (by simp [sampleRecord])),
   (history_get_claim { records := [sampleRecord], cached := [] } "t1" 7 rfl).1 rfl⟩

/-- Claim C7: `history.delete(topic, id?)` with an `id` removes exactly the
records whose id is `id` and whose stored topic equals `topic` (so the record
with that id is removed only if its topic matches), leaving every other
record in place; without an `id` it removes exactly the records of `topic`,
leaving records of other topics in place; in both cases one `deleted` event
is emitted per removed record. -/
theorem history_delete_claim (rs : Records) (topic : String) (id : Nat) :
    (∀ r, r ∈ rs →
        (r ∈ (deleteCore rs topic (some id)).1 ↔ ¬(r.topic = topic ∧ r.id = id)))
    ∧ (∀ r, r ∈ (deleteCore rs topic (some id)).1 → r ∈ rs)
    ∧ (deleteCore rs topic (some id)).2
        = List.map HistoryEvent.deleted
            (List.filter (fun r => r.topic == topic && r.id == id) rs)
    ∧ (∀ r, r ∈ rs →
        (r ∈ (deleteCore rs topic none).1 ↔ r.topic ≠ topic))
    ∧ (∀ r, r ∈ (deleteCore rs topic none).1 → r ∈ rs)
    ∧ (deleteCore rs topic none).2
        = List.map HistoryEvent.deleted
            (List.filter (fun r => r.topic == topic) rs) := by
  refine ⟨?_, ?_, ?_, ?_, ?_, ?_⟩
  · intro r hr
    simp [deleteCore, List.mem_filter, hr, delMatch]
    tauto
  · intro r hr
    exact (List.mem_filter.mp hr).1
  · have hpred : delMatch topic (some id)
        = fun r : JsonRpcRecord => r.topic == topic && r.id == id :=
      funext fun r => rfl
    simp [deleteCore, hpred]
  · intro r hr
    simp [deleteCore, List.mem_filter, hr, delMatch]
  · intro r hr
    exact (List.mem_filter.mp hr).1
  · have hpred : delMatch topic none
        = fun r : JsonRpcRecord => r.topic == topic := by
      funext r
      simp [delMatch]
    simp [deleteCore, hpred]

/-- Claim C7, witness: deleting by topic and id removes the matching record
and keeps the record of the other topic; deleting a whole topic removes its
record and emits one `deleted` event for it. -/
theorem history_delete_claim_witness :
    sampleRecord2 ∈ (deleteCore [sampleRecord, sampleRecord2] "t1" (some 1)).1
    ∧ (sampleRecord ∈ (deleteCore [sampleRecord, sampleRecord2] "t1" (some 1)).1 ↔ False)
    ∧ (deleteCore [sampleRecord, sampleRecord2] "t1" none).2
        = [HistoryEvent.deleted sampleRecord] := by
  refine ⟨?_, ?_, ?_⟩
  · have h := (history_delete_claim [sampleRecord, sampleRecord2] "t1" 1).1 sampleRecord2
      (by simp)
    exact h.mpr (by simp [sampleRecord2])
  · have h := (history_delete_claim [sampleRecord, sampleRecord2] "t1" 1).1 sampleRecord
      (by simp)
    constructor
    · intro hmem
      exact (h.mp hmem) ⟨rfl, rfl⟩
    · intro hf
      exact absurd hf (by simp)
  · have h := (history_delete_claim [sampleRecord, sampleRecord2] "t1" 1).2.2.2.2.2
    rw [h]
    rfl

/-- Case analysis on what `update` does to the record map: it either leaves
it unchanged or overwrites the record found at `response.id` with the same
record carrying the stored response. -/
theorem updateCore_fst_cases (rs : Records) (topic : String)
    (resp : RpcResponse) :
    (updateCore rs topic resp).1 = rs
    ∨ ∃ record, recGet rs resp.rid = some record
        ∧ (updateCore rs topic resp).1
            = recSet rs { record with response := some (storeResponse resp) } := by
  unfold updateCore
  cases hhas : recHas rs resp.rid
  · simp
  · cases hfind : recGet rs resp.rid with
    | none => simp
    | some record =>
      cases hb1 : record.topic != topic
      · have ht : record.topic = topic := by simpa using hb1
        cases hb2 : record.response.isSome
        · right
          refine ⟨record, rfl, ?_⟩
          simp [ht, hb2]
        · left
          simp [ht, hb2]
      · left
        have ht : ¬record.topic = topic := by simpa using hb1
        simp [ht]

/-- With the record found and already answered, `update` is a no-op. -/
theorem updateCore_noop_answered (rs : Records) (topic : String)
    (resp : RpcResponse) (r : JsonRpcRecord) (h : recGet rs resp.rid = some r)
    (hr : r.response.isSome = true) : updateCore rs topic resp = (rs, []) := by
  unfold updateCore
  rw [recHas_of_recGet h, if_pos rfl, h]
  cases hb : r.topic != topic
  · simp [hb, hr]
  · simp [hb]

/-- Claim C1: `history.update(topic, response)` returns without changing any
record when no record has `response.id`, when the stored record's topic
differs from `topic`, or when the record already has a response; otherwise it
sets the record's response to `{error: response.error}` for a JSON-RPC error
and `{result: response.result}` otherwise, and once a record's response is
present no later `update` ever changes it. -/
theorem history_update_claim (rs : Records) (topic : String)
    (resp : RpcResponse) :
    (recHas rs resp.rid = false → updateCore rs topic resp = (rs, []))
    ∧ (∀ r, recGet rs resp.rid = some r →
        (r.topic ≠ topic → updateCore rs topic resp = (rs, []))
        ∧ (r.response.isSome = true → updateCore rs topic resp = (rs, []))
        ∧ (r.topic = topic → r.response = none →
            updateCore rs topic resp
              = (recSet rs { r with response := some (storeResponse resp) },
                 [.updated { r with response := some (storeResponse resp) }])
            ∧ recGet (updateCore rs topic resp).1 resp.rid
                = some { r with response := some (storeResponse resp) }
            ∧ (isJsonRpcError resp = true →
                ∀ i c m, resp = .error i c m → storeResponse resp = .error c m)
            ∧ (isJsonRpcError resp = false →
                ∀ i v, resp = .result i v → storeResponse resp = .result v)
            ∧ (∀ topic' resp',
                recGet (updateCore
                    (recSet rs { r with response := some (storeResponse resp) })
                    topic' resp').1 resp.rid
                  = some { r with response := some (storeResponse resp) }))) := by
  constructor
  · intro h
    unfold updateCore
    rw [h]
    simp
  · intro r h
    have hhas := recHas_of_recGet h
    have hid : r.id = resp.rid := recGet_id h
    refine ⟨?_, ?_, ?_⟩
    · intro ht
      unfold updateCore
      rw [hhas, if_pos rfl, h]
      have : (r.topic != topic) = true := by simpa using ht
      simp [this]
    · exact updateCore_noop_answered rs topic resp r h
    · intro ht hresp
      have hbt : (r.topic != topic) = false := by simpa using ht
      have hsome : r.response.isSome = false := by simp [hresp]
      have hrun : updateCore rs topic resp
          = (recSet rs { r with response := some (storeResponse resp) },
             [.updated { r with response := some (storeResponse resp) }]) := by
        unfold updateCore
        rw [hhas, if_pos rfl, h]
        simp [hbt, hsome]
      refine ⟨hrun, ?_, ?_, ?_, ?_⟩
      · rw [hrun]
        have hid' : ({ r with response := some (storeResponse resp) } : JsonRpcRecord).id
            = resp.rid := hid
        rw [← hid']
        exact recGet_recSet_self rs _
      · intro _ i c m he
        subst he
        rfl
      · intro _ i v he
        subst he
        rfl
      · intro topic' resp'
        set r' : JsonRpcRecord := { r with response := some (storeResponse resp) } with hr'
        have hid' : r'.id = resp.rid := hid
        have hget' : recGet (recSet rs r') resp.rid = some r' := by
          rw [← hid']
          exact recGet_recSet_self rs r'
        by_cases hsame : resp'.rid = resp.rid
        · have hget'' : recGet (recSet rs r') resp'.rid = some r' := by
            rw [hsame]
            exact hget'
          have : updateCore (recSet rs r') topic' resp' = (recSet rs r', []) :=
            updateCore_noop_answered (recSet rs r') topic' resp' r' hget'' rfl
          rw [this]
          exact hget'
        · rcases updateCore_fst_cases (recSet rs r') topic' resp' with hcase | ⟨record, hfind, hcase⟩
          · rw [hcase]
            exact hget'
          · have hrid : record.id = resp'.rid := recGet_id hfind
            have hne : ({ record with
                response := some (storeResponse resp') } : JsonRpcRecord).id
                ≠ resp.rid := by
              simpa [hrid] using hsame
            rw [hcase, recGet_recSet_ne _ _ _ hne]
            exact hget'

/-- Claim C1, witness: updating a pending record on its own topic attaches
the `{result}` response; a repeated update of the same record is then a
no-op that leaves the stored response in place. -/
theorem history_update_claim_witness :
    recGet [sampleRecord] (RpcResponse.result 1 (JsonValue.str "0x")).rid
      = some sampleRecord
    ∧ updateCore [sampleRecord] "t1" (RpcResponse.result 1 (JsonValue.str "0x"))
        = ([{ sampleRecord with
              response := some (StoredResponse.result (JsonValue.str "0x")) }],
           [HistoryEvent.updated { sampleRecord with
              response := some (StoredResponse.result (JsonValue.str "0x")) }]) := by
  refine ⟨rfl, ?_⟩
  have h := (((history_update_claim [sampleRecord] "t1"
      (RpcResponse.result 1 (JsonValue.str "0x"))).2 sampleRecord rfl).2.2 rfl rfl).1
  rw [h]
  rfl

/-- Claim C8, counterexample: an empty frame is answered with the plain text
string `"Missing or invalid socket data"` — a raw string frame, not a
JSON-RPC error response — while the socket is indeed not closed. -/
theorem ws_bad_frame_cex :
    (handleSocketMessage ⟨false, false⟩ "" ParseOutcome.failure).reply
      = some (WsOutMsg.str "Missing or invalid socket data")
    ∧ replyIsJsonRpcErrorResponse
        (handleSocketMessage ⟨false, false⟩ "" ParseOutcome.failure).reply = false
    ∧ (handleSocketMessage ⟨false, false⟩ "" ParseOutcome.failure).closesSocket
      = false := by
  refine ⟨rfl, rfl, rfl⟩

/-- Claim C8, amended: for every inbound frame that is empty, whitespace-only
or fails to parse as JSON, the `message` handler sends the peer a plain-text
protocol-error message (a raw string, not a JSON-RPC error response),
dispatches nothing, and does not close the socket; the live socket set is
unchanged by the frame and subsequent events are handled exactly as before. -/
theorem ws_bad_frame_claim (mode : RelayModeFlags) (sockets : WsState)
    (sid : String) (message : String) (parse : ParseOutcome)
    (hbad : message.trim.isEmpty = true ∨ parse = ParseOutcome.failure) :
    (handleSocketMessage mode message parse
        = { reply := some (WsOutMsg.str "Missing or invalid socket data"),
            dispatch := none, closesSocket := false }
      ∨ handleSocketMessage mode message parse
        = { reply := some (WsOutMsg.str "Socket message is invalid"),
            dispatch := none, closesSocket := false })
    ∧ stepEvent sockets (WsEvent.msgEvt sid message parse) = sockets
    ∧ (∀ e, stepEvent (stepEvent sockets (WsEvent.msgEvt sid message parse)) e
          = stepEvent sockets e) := by
  refine ⟨?_, rfl, fun e => rfl⟩
  unfold handleSocketMessage
  cases hc : message.isEmpty || message.trim.isEmpty
  · have htr : message.trim.isEmpty = false := (Bool.or_eq_false_iff.mp hc).2
    have hp : parse = ParseOutcome.failure := by
      cases hbad with
      | inl hb => rw [htr] at hb; cases hb
      | inr hb => exact hb
    subst hp
    right
    rfl
  · left
    rfl

/-- Claim C8, witness for the amended claim: a concrete unparsable frame
an unparsable frame gets a plain-text reply and leaves a one-socket live set unchanged. -/
theorem ws_bad_frame_claim_witness :
    ("x\x7b".trim.isEmpty = true ∨ ParseOutcome.failure = ParseOutcome.failure)
    ∧ stepEvent [("s1", none)] (WsEvent.msgEvt "s1" "x\x7b" ParseOutcome.failure)
        = [("s1", none)] :=
  ⟨Or.inr rfl,
   (ws_bad_frame_claim ⟨false, false⟩ [("s1", none)] "s1" "x\x7b"
      ParseOutcome.failure (Or.inr rfl)).2.1⟩

/-- Keys of an association list are unique, so two entries with the same key
carry the same value. -/
theorem assoc_unique {l : WsState} {sid : String} {a b : Option Bool}
    (hnd : (List.map Prod.fst l).Nodup) (ha : (sid, a) ∈ l)
    (hb : (sid, b) ∈ l) : a = b := by
  induction l with
  | nil => cases ha
  | cons e t ih =>
    have hnd' : e.1 ∉ List.map Prod.fst t ∧ (List.map Prod.fst t).Nodup := by
      simpa using List.nodup_cons.mp hnd
    cases ha with
    | head =>
      cases hb with
      | head => rfl
      | tail _ hb' =>
        exact absurd (List.mem_map.mpr ⟨(sid, b), hb', rfl⟩) hnd'.1
    | tail _ ha' =>
      cases hb with
      | head =>
        exact absurd (List.mem_map.mpr ⟨(sid, a), ha', rfl⟩) hnd'.1
      | tail _ hb' => exact ih hnd'.2 ha' hb'

/-- The liveness invariant: along any trace in which `sid` answers every
ping and never closes, `sid` stays in the live set. The flag `ok` records
whether its `isAlive` is currently known not to be `false`. -/
theorem liveness_aux (sid : String) :
    ∀ (es : List WsEvent) (s : WsState) (ok : Bool),
      answersEveryPing sid es ok = true →
      WsEvent.closeEvt sid ∉ es →
      (∃ a, (sid, a) ∈ s ∧ (ok = true → a ≠ some false)) →
      ∃ b, (sid, b) ∈ runEvents s es := by
  intro es
  induction es with
  | nil =>
    intro s ok _ _ hinv
    obtain ⟨a, ha, _⟩ := hinv
    exact ⟨a, ha⟩
  | cons e rest ih =>
    intro s ok hans hcl hinv
    obtain ⟨a, ha, hok⟩ := hinv
    have hcl' : WsEvent.closeEvt sid ∉ rest := fun h => hcl (List.mem_cons_of_mem _ h)
    cases e with
    | beat =>
      have hans' : ok = true ∧ answersEveryPing sid rest false = true := by
        simpa [answersEveryPing] using hans
      have hane : a ≠ some false := hok hans'.1
      have hmem : (sid, some false) ∈ (beatStep s).state := by
        refine List.mem_map.mpr ⟨(sid, a), List.mem_filter.mpr ⟨ha, ?_⟩, rfl⟩
        simp [socketDead, hane]
      exact ih (beatStep s).state false hans'.2 hcl'
        ⟨some false, hmem, fun h => absurd h (by simp)⟩
    | pong p =>
      have hans' : answersEveryPing sid rest (ok || (p == sid)) = true := by
        simpa [answersEveryPing] using hans
      by_cases hp : p = sid
      · have hmem : (sid, some true) ∈ pongStep s p := by
          refine List.mem_map.mpr ⟨(sid, a), ha, ?_⟩
          simp [hp]
        exact ih (pongStep s p) _ hans' hcl'
          ⟨some true, hmem, fun _ => by simp⟩
      · have hmem : (sid, a) ∈ pongStep s p := by
          refine List.mem_map.mpr ⟨(sid, a), ha, ?_⟩
          simp [beq_eq_false_iff_ne.mpr (Ne.symm hp)]
        have hokk : (ok || (p == sid)) = true → a ≠ some false := by
          intro h
          have hokt : ok = true := by
            simpa [beq_eq_false_iff_ne.mpr hp] using h
          exact hok hokt
        exact ih (pongStep s p) _ hans' hcl' ⟨a, hmem, hokk⟩
    | msgEvt q f pa =>
      have hans' : answersEveryPing sid rest ok = true := by
        simpa [answersEveryPing] using hans
      exact ih s ok hans' hcl' ⟨a, ha, hok⟩
    | closeEvt q =>
      have hq : q ≠ sid := by
        intro h
        exact hcl (by simp [h])
      have hans' : answersEveryPing sid rest ok = true := by
        simpa [answersEveryPing] using hans
      have hmem : (sid, a) ∈ closeStep s q := by
        refine List.mem_filter.mpr ⟨ha, ?_⟩
        simp [Ne.symm hq]
      exact ih (closeStep s q) ok hans' hcl' ⟨a, hmem, hok⟩

/-- Claim C9: at every server beat, a socket whose `isAlive` flag is `false`
is terminated and removed from the live set; every other socket has its flag
set to `false` and is sent a ping; a pong from the peer sets `isAlive` back
to `true`; consequently a socket that answers every ping (and is not closed
by other means) is never terminated by the beat and stays in the live set
along any event trace. -/
theorem ws_liveness_claim (s : WsState) (sid : String) :
    ((sid, some false) ∈ s → sid ∈ (beatStep s).terminated)
    ∧ ((List.map Prod.fst s).Nodup → (sid, some false) ∈ s →
        lookupSocket (beatStep s).state sid = none)
    ∧ (∀ a, (sid, a) ∈ s → a ≠ some false →
        (sid, some false) ∈ (beatStep s).state ∧ sid ∈ (beatStep s).pinged)
    ∧ (∀ a, (sid, a) ∈ s → (sid, some true) ∈ pongStep s sid)
    ∧ (∀ a es, (sid, a) ∈ s → a ≠ some false →
        answersEveryPing sid es true = true →
        WsEvent.closeEvt sid ∉ es →
        ∃ b, (sid, b) ∈ runEvents s es) := by
  refine ⟨?_, ?_, ?_, ?_, ?_⟩
  · intro h
    exact List.mem_map.mpr
      ⟨(sid, some false), List.mem_filter.mpr ⟨h, by simp [socketDead]⟩, rfl⟩
  · intro hnd hmem
    have hfind : List.find? (fun e => e.1 == sid) (beatStep s).state = none := by
      refine List.find?_eq_none.mpr ?_
      intro x hx
      rcases List.mem_map.mp hx with ⟨e, he, hfx⟩
      rcases List.mem_filter.mp he with ⟨hes, hal⟩
      intro hk
      have hx1 : x.1 = sid := by simpa using hk
      have he1 : e.1 = sid := by
        have : x.1 = e.1 := by rw [← hfx]
        rw [← this, hx1]
      have hes' : (sid, e.2) ∈ s := by
        have : e = (sid, e.2) := by
          rw [← he1]
        rw [← this]
        exact hes
      have hval : e.2 = some false := assoc_unique hnd hes' hmem
      rw [socketDead, hval] at hal
      simp at hal
    simp [lookupSocket, hfind]
  · intro a ha hane
    constructor
    · exact List.mem_map.mpr
        ⟨(sid, a), List.mem_filter.mpr ⟨ha, by simp [socketDead, hane]⟩, rfl⟩
    · exact List.mem_map.mpr
        ⟨(sid, a), List.mem_filter.mpr ⟨ha, by simp [socketDead, hane]⟩, rfl⟩
  · intro a ha
    exact List.mem_map.mpr ⟨(sid, a), ha, by simp⟩
  · intro a es ha hane hans hcl
    exact liveness_aux sid es s true hans hcl ⟨a, ha, fun _ => hane⟩

/-- Claim C9, witness: a dead socket is terminated at the beat; a live socket
that answers the ping after a beat survives a trace of two beats. -/
theorem ws_liveness_claim_witness :
    "s1" ∈ (beatStep [("s1", some false)]).terminated
    ∧ ∃ b, ("s2", b) ∈
        runEvents [("s2", some true)]
          [WsEvent.beat, WsEvent.pong "s2", WsEvent.beat] := by
  constructor
  · exact (ws_liveness_claim [("s1", some false)] "s1").1 (by simp)
  · exact (ws_liveness_claim [("s2", some true)] "s2").2.2.2.2
      (some true) [WsEvent.beat, WsEvent.pong "s2", WsEvent.beat]
      (by simp) (by simp) (by simp [answersEveryPing]) (by simp)

end WalletConnect
